import Mathlib

/-!
# Verification of the go-snake game core

A shallow embedding of the game-state core of the `go-snake` repository
(`main.go`, plus the timed-food variant file). Go slices of points become
`List Point`, Go `int` becomes `Int`, and the `math/rand` source becomes an
explicit stream `s : Nat → Nat` of non-negative draws together with a cursor
position: `rand.Intn n` at cursor `i` is `s i % n`. The unbounded rejection
loop of `PlaceFood` is modelled with explicit fuel, returning `none` when the
fuel runs out; `Update` returns `none` exactly when the Go code would panic
(empty snake, food-type index out of range) or when the placement fuel runs
out.
-/

set_option autoImplicit false

namespace SnakeGame

/-- Grid width, from the `width` constant of `main.go`. -/
def width : Int := 40

/-- Grid height, from the `height` constant of `main.go`. -/
def height : Int := 20

/-- Initial snake length, from the `initialSize` constant. -/
def initialSize : Nat := 3

/-- The fixed food symbol table of `main.go`. -/
def foodSymbols : List Char := ['🥝', '🍅', '🧀', '🍬']

/-- The fixed food value table of `main.go`. -/
def foodValues : List Int := [1, 3, 5, 7]

/-- `Point` from `main.go`: a position on the grid. -/
structure Point where
  x : Int
  y : Int
deriving DecidableEq, Repr

/-- `Direction` from `main.go`. -/
inductive Direction where
  | Up
  | Right
  | Down
  | Left
deriving DecidableEq, Repr

/-- The point-equality test the Go code writes out as
`p.X == q.X && p.Y == q.Y`. -/
def samePoint (p q : Point) : Bool :=
  p.x == q.x && p.y == q.y

/-- The self/food collision scan `for _, p := range g.snake { if p.X == c.X && p.Y == c.Y ... }`. -/
def onSnake (snake : List Point) (c : Point) : Bool :=
  snake.any fun p => samePoint p c

/-- One step of the head in a direction, from the `switch g.direction` block of `Update`. -/
def step (d : Direction) (p : Point) : Point :=
  match d with
  | .Up => ⟨p.x, p.y - 1⟩
  | .Right => ⟨p.x + 1, p.y⟩
  | .Down => ⟨p.x, p.y + 1⟩
  | .Left => ⟨p.x - 1, p.y⟩

/-- The wraparound block of `Update`: each axis independently maps `< 0` to
`dim - 1` and `≥ dim` to `0`. -/
def wrap (w h : Int) (p : Point) : Point :=
  ⟨if p.x < 0 then w - 1 else if p.x ≥ w then 0 else p.x,
   if p.y < 0 then h - 1 else if p.y ≥ h then 0 else p.y⟩

/-- A point lies inside the `w × h` grid. -/
def inGrid (w h : Int) (p : Point) : Prop :=
  0 ≤ p.x ∧ p.x < w ∧ 0 ≤ p.y ∧ p.y < h

instance (w h : Int) (p : Point) : Decidable (inGrid w h p) := by
  unfold inGrid; infer_instance

/-- The `k`-th candidate the `PlaceFood` rejection loop draws when the random
cursor stands at `pos`: `x` from draw `pos + 2k`, `y` from draw `pos + 2k + 1`. -/
def foodCand (s : Nat → Nat) (pos k : Nat) (w h : Int) : Point :=
  ⟨(s (pos + 2 * k) : Int) % w, (s (pos + 2 * k + 1) : Int) % h⟩

/-- The `for {}` rejection loop of `PlaceFood`, with explicit fuel. Returns
the accepted point and the new random-cursor position. -/
def placeFoodLoop (w h : Int) (snake : List Point) (s : Nat → Nat) :
    Nat → Nat → Option (Point × Nat)
  | _, 0 => none
  | pos, fuel + 1 =>
    let p : Point := ⟨(s pos : Int) % w, (s (pos + 1) : Int) % h⟩
    if onSnake snake p then placeFoodLoop w h snake s (pos + 2) fuel
    else some (p, pos + 2)

/-- `Game` from `main.go`. -/
structure Game where
  snake : List Point
  food : Point
  foodType : Nat
  direction : Direction
  score : Int
  highScore : Int
  gameOver : Bool
deriving DecidableEq, Repr

/-- `Game.PlaceFood` from `main.go`: draw a food type, then rejection-sample a
position not on the snake. -/
def placeFood (g : Game) (s : Nat → Nat) (pos fuel : Nat) : Option (Game × Nat) :=
  let ft := s pos % foodSymbols.length
  match placeFoodLoop width height g.snake s (pos + 1) fuel with
  | some (p, pos') => some ({ g with foodType := ft, food := p }, pos')
  | none => none

/-- `Game.Update` from `main.go`: no-op when the game is over; otherwise move
the head with wraparound, detect self-collision, grow, resolve food. -/
def update (g : Game) (s : Nat → Nat) (pos fuel : Nat) : Option (Game × Nat) :=
  if g.gameOver then some (g, pos)
  else
    match g.snake with
    | [] => none
    | head :: _ =>
      let newHead := wrap width height (step g.direction head)
      if onSnake g.snake newHead then
        some ({ g with gameOver := true }, pos)
      else
        let snake1 := newHead :: g.snake
        if samePoint newHead g.food then
          match foodValues[g.foodType]? with
          | none => none
          | some v =>
            let score1 := g.score + v
            let hs1 := if score1 > g.highScore then score1 else g.highScore
            placeFood { g with snake := snake1, score := score1, highScore := hs1 }
              s pos fuel
        else
          some ({ g with snake := snake1.dropLast }, pos)

/-- `NewGame` from `main.go`: three collinear segments centred on the grid,
heading `Right`, then an initial `PlaceFood`. -/
def newGame (s : Nat → Nat) (pos fuel : Nat) : Option (Game × Nat) :=
  let g : Game :=
    { snake := (List.range initialSize).map fun (i : Nat) => ⟨width / 2 - (i : Int), height / 2⟩
      food := ⟨0, 0⟩
      foodType := 0
      direction := .Right
      score := 0
      highScore := 0
      gameOver := false }
  placeFood g s pos fuel

/-- The arrow-key handler of `main`: each arrow sets the stored direction
unless the stored direction is currently the opposite one. -/
def requestDirection (d req : Direction) : Direction :=
  match req with
  | .Up => if d ≠ .Down then .Up else d
  | .Right => if d ≠ .Left then .Right else d
  | .Down => if d ≠ .Up then .Down else d
  | .Left => if d ≠ .Right then .Left else d

/-- Geometric opposite of a direction (the spec's reversal notion). -/
def opposite : Direction → Direction
  | .Up => .Down
  | .Down => .Up
  | .Left => .Right
  | .Right => .Left

/-- The `max` helper of `main.go`. -/
def goMax (a b : Int) : Int :=
  if a > b then a else b

/-- The `'r'` branch of the main loop: when the game is over, fold the ended
game's high score into the session high score and start a fresh game carrying
it; otherwise ignore the request. -/
def restart (hs : Int) (g : Game) (s : Nat → Nat) (pos fuel : Nat) :
    Option (Int × Game × Nat) :=
  if g.gameOver then
    let hs1 := goMax hs g.highScore
    match newGame s pos fuel with
    | some (g0, pos') => some (hs1, { g0 with highScore := hs1 }, pos')
    | none => none
  else
    some (hs, g, pos)

namespace Timed

/-- Grid height of the timed-food variant file. -/
def height : Int := 15

/-- Minimum ticks food stays on screen (timed variant). -/
def minFoodTime : Int := 50

/-- Maximum ticks food stays on screen (timed variant). -/
def maxFoodTime : Int := 150

/-- Ticks to wait before spawning new food (timed variant). -/
def foodRespawnTime : Int := 20

/-- The food symbol table of the timed variant file. -/
def foodSymbols : List Char := ['🍆', '🍗', '🧀', '🍬']

/-- The food value table of the timed variant file. -/
def foodValues : List Int := [1, 3, 5, 7]

/-- `Game` of the timed variant file: the `main.go` state plus the food
timer, visibility flag, and respawn counter. -/
structure Game where
  snake : List Point
  food : Point
  foodType : Nat
  direction : Direction
  score : Int
  highScore : Int
  gameOver : Bool
  foodTimer : Int
  foodVisible : Bool
  foodRespawnCounter : Int
deriving DecidableEq, Repr

/-- `Game.PlaceFood` of the timed variant: draw a food type, a random
lifetime in `[minFoodTime, maxFoodTime)`, mark the food visible, then
rejection-sample a position not on the snake. -/
def placeFood (g : Game) (s : Nat → Nat) (pos fuel : Nat) : Option (Game × Nat) :=
  let ft := s pos % foodSymbols.length
  let timer : Int := (s (pos + 1) % (maxFoodTime - minFoodTime).toNat : Nat) + minFoodTime
  match placeFoodLoop width height g.snake s (pos + 2) fuel with
  | some (p, pos') =>
    some ({ g with foodType := ft, foodTimer := timer, foodVisible := true, food := p }, pos')
  | none => none

/-- The food-timer phase at the top of the timed variant's `Update`:
count the visible food down and hide it at zero, or count the respawn delay
down and place new food at zero. -/
def foodPhase (g : Game) (s : Nat → Nat) (pos fuel : Nat) : Option (Game × Nat) :=
  if g.foodVisible then
    let t := g.foodTimer - 1
    if t ≤ 0 then
      some ({ g with foodTimer := t, foodVisible := false,
                     foodRespawnCounter := foodRespawnTime }, pos)
    else
      some ({ g with foodTimer := t }, pos)
  else
    let c := g.foodRespawnCounter - 1
    if c ≤ 0 then placeFood { g with foodRespawnCounter := c } s pos fuel
    else some ({ g with foodRespawnCounter := c }, pos)

/-- `Game.Update` of the timed variant: the food-timer phase, then the same
movement/collision/food logic as `main.go`, with eating gated on
`foodVisible`. -/
def update (g : Game) (s : Nat → Nat) (pos fuel : Nat) : Option (Game × Nat) :=
  if g.gameOver then some (g, pos)
  else
    match foodPhase g s pos fuel with
    | none => none
    | some (g1, pos1) =>
      match g1.snake with
      | [] => none
      | head :: _ =>
        let newHead := wrap width height (step g1.direction head)
        if onSnake g1.snake newHead then
          some ({ g1 with gameOver := true }, pos1)
        else
          let snake1 := newHead :: g1.snake
          if g1.foodVisible && samePoint newHead g1.food then
            match foodValues[g1.foodType]? with
            | none => none
            | some v =>
              let score1 := g1.score + v
              let hs1 := if score1 > g1.highScore then score1 else g1.highScore
              placeFood { g1 with snake := snake1, score := score1, highScore := hs1 }
                s pos1 fuel
          else
            some ({ g1 with snake := snake1.dropLast }, pos1)

end Timed

/-! ## Basic lemmas about the point and collision predicates -/

lemma samePoint_iff (p q : Point) : samePoint p q = true ↔ p = q := by
  cases p; cases q
  simp [samePoint, Point.mk.injEq]

lemma samePoint_eq_false_iff (p q : Point) : samePoint p q = false ↔ p ≠ q := by
  rw [Bool.eq_false_iff, Ne, samePoint_iff]

lemma onSnake_iff (l : List Point) (c : Point) : onSnake l c = true ↔ c ∈ l := by
  simp [onSnake, List.any_eq_true, samePoint_iff]

lemma onSnake_eq_false_iff (l : List Point) (c : Point) :
    onSnake l c = false ↔ c ∉ l := by
  rw [Bool.eq_false_iff, Ne, onSnake_iff]

/-! ## Shape lemmas for `placeFood` and `update` -/

lemma placeFood_some_eq {g : Game} {s : Nat → Nat} {pos fuel : Nat} {g' : Game}
    {pos' : Nat} (h : placeFood g s pos fuel = some (g', pos')) :
    ∃ p, placeFoodLoop width height g.snake s (pos + 1) fuel = some (p, pos') ∧
      g' = { g with foodType := s pos % foodSymbols.length, food := p } := by
  cases hL : placeFoodLoop width height g.snake s (pos + 1) fuel with
  | none =>
    simp only [placeFood, hL] at h
    exact Option.noConfusion h
  | some pr =>
    obtain ⟨p, q⟩ := pr
    simp only [placeFood, hL, Option.some.injEq, Prod.mk.injEq] at h
    obtain ⟨h1, h2⟩ := h
    subst h2
    exact ⟨p, rfl, h1.symm⟩

lemma placeFoodLoop_sound {w h : Int} (hw : 0 < w) (hh : 0 < h)
    (snake : List Point) (s : Nat → Nat) :
    ∀ (fuel pos : Nat) (p : Point) (pos' : Nat),
      placeFoodLoop w h snake s pos fuel = some (p, pos') →
      onSnake snake p = false ∧ inGrid w h p := by
  intro fuel
  induction fuel with
  | zero =>
    intro pos p pos' hres
    simp [placeFoodLoop] at hres
  | succ n ih =>
    intro pos p pos' hres
    simp only [placeFoodLoop] at hres
    cases hcol : onSnake snake ⟨(s pos : Int) % w, (s (pos + 1) : Int) % h⟩ with
    | true =>
      rw [if_pos hcol] at hres
      exact ih (pos + 2) p pos' hres
    | false =>
      rw [if_neg (by simp [hcol])] at hres
      simp only [Option.some.injEq, Prod.mk.injEq] at hres
      obtain ⟨h1, _⟩ := hres
      subst h1
      refine ⟨hcol, ?_, ?_, ?_, ?_⟩
      · exact Int.emod_nonneg _ (ne_of_gt hw)
      · exact Int.emod_lt_of_pos _ hw
      · exact Int.emod_nonneg _ (ne_of_gt hh)
      · exact Int.emod_lt_of_pos _ hh

lemma wrap_inGrid {w h : Int} (hw : 0 < w) (hh : 0 < h) (p : Point) :
    inGrid w h (wrap w h p) := by
  simp only [wrap, inGrid]
  split_ifs <;> omega

lemma update_nil {g : Game} (s : Nat → Nat) (pos fuel : Nat)
    (h0 : g.gameOver = false) (hsnake : g.snake = []) :
    update g s pos fuel = none := by
  simp [update, h0, hsnake]

/-- Full case analysis of `Game.Update` of `main.go` on a live state. -/
lemma update_cases (g : Game) (s : Nat → Nat) (pos fuel : Nat) (head : Point)
    (rest : List Point) (nh : Point)
    (h0 : g.gameOver = false) (hsnake : g.snake = head :: rest)
    (hnh : nh = wrap width height (step g.direction head)) :
    (onSnake g.snake nh = true ∧
      update g s pos fuel = some ({ g with gameOver := true }, pos)) ∨
    (onSnake g.snake nh = false ∧ samePoint nh g.food = false ∧
      update g s pos fuel = some ({ g with snake := (nh :: g.snake).dropLast }, pos)) ∨
    (onSnake g.snake nh = false ∧ samePoint nh g.food = true ∧
      ((foodValues[g.foodType]? = none ∧ update g s pos fuel = none) ∨
        ∃ v, foodValues[g.foodType]? = some v ∧
          update g s pos fuel =
            placeFood { g with snake := nh :: g.snake, score := g.score + v,
                               highScore := if g.score + v > g.highScore then g.score + v
                                            else g.highScore } s pos fuel)) := by
  subst hnh
  cases hcol : onSnake g.snake (wrap width height (step g.direction head)) with
  | true =>
    left
    refine ⟨rfl, ?_⟩
    rw [update, if_neg (by simp [h0]), hsnake]
    simp only [← hsnake, hcol, if_pos]
  | false =>
    right
    cases heat : samePoint (wrap width height (step g.direction head)) g.food with
    | false =>
      left
      refine ⟨rfl, rfl, ?_⟩
      rw [update, if_neg (by simp [h0]), hsnake]
      simp only [← hsnake, hcol, heat, Bool.false_eq_true, if_false]
    | true =>
      right
      refine ⟨rfl, rfl, ?_⟩
      cases hv : foodValues[g.foodType]? with
      | none =>
        left
        refine ⟨rfl, ?_⟩
        rw [update, if_neg (by simp [h0]), hsnake]
        simp only [← hsnake, hcol, heat, hv, Bool.false_eq_true, if_false, if_pos]
      | some v =>
        right
        refine ⟨v, rfl, ?_⟩
        rw [update, if_neg (by simp [h0]), hsnake]
        simp only [← hsnake, hcol, heat, hv, Bool.false_eq_true, if_false, if_pos]

namespace Timed

lemma placeFood_some_eqT {g : Game} {s : Nat → Nat} {pos fuel : Nat} {g' : Game}
    {pos' : Nat} (h : placeFood g s pos fuel = some (g', pos')) :
    ∃ p, placeFoodLoop width height g.snake s (pos + 2) fuel = some (p, pos') ∧
      g' = { g with foodType := s pos % foodSymbols.length,
                    foodTimer :=
                      ((s (pos + 1) % (maxFoodTime - minFoodTime).toNat : Nat) : Int)
                        + minFoodTime,
                    foodVisible := true, food := p } := by
  cases hL : placeFoodLoop width height g.snake s (pos + 2) fuel with
  | none =>
    simp only [placeFood, hL] at h
    exact Option.noConfusion h
  | some pr =>
    obtain ⟨p, q⟩ := pr
    simp only [placeFood, hL, Option.some.injEq, Prod.mk.injEq] at h
    obtain ⟨h1, h2⟩ := h
    subst h2
    exact ⟨p, rfl, h1.symm⟩

lemma foodPhase_frame {g : Game} {s : Nat → Nat} {pos fuel : Nat} {g1 : Game}
    {pos1 : Nat} (h : foodPhase g s pos fuel = some (g1, pos1)) :
    g1.snake = g.snake ∧ g1.direction = g.direction ∧ g1.score = g.score ∧
      g1.highScore = g.highScore ∧ g1.gameOver = g.gameOver := by
  simp only [foodPhase] at h
  split_ifs at h with h1 h2 h3 <;>
    first
    | (obtain ⟨p, _, hg1⟩ := placeFood_some_eqT h
       subst hg1
       exact ⟨rfl, rfl, rfl, rfl, rfl⟩)
    | (simp only [Option.some.injEq, Prod.mk.injEq] at h
       obtain ⟨h4, _⟩ := h
       subst h4
       exact ⟨rfl, rfl, rfl, rfl, rfl⟩)

/-- Full case analysis of the timed variant's `Game.Update` on a live state,
after the food-timer phase. -/
lemma update_casesT (g : Game) (s : Nat → Nat) (pos fuel : Nat) (g1 : Game)
    (pos1 : Nat) (head : Point) (rest : List Point) (nh : Point)
    (h0 : g.gameOver = false)
    (hphase : foodPhase g s pos fuel = some (g1, pos1))
    (hsnake : g1.snake = head :: rest)
    (hnh : nh = wrap width height (step g1.direction head)) :
    (onSnake g1.snake nh = true ∧
      update g s pos fuel = some ({ g1 with gameOver := true }, pos1)) ∨
    ((g1.foodVisible && samePoint nh g1.food) = false ∧ onSnake g1.snake nh = false ∧
      update g s pos fuel = some ({ g1 with snake := (nh :: g1.snake).dropLast }, pos1)) ∨
    ((g1.foodVisible && samePoint nh g1.food) = true ∧ onSnake g1.snake nh = false ∧
      ((foodValues[g1.foodType]? = none ∧ update g s pos fuel = none) ∨
        ∃ v, foodValues[g1.foodType]? = some v ∧
          update g s pos fuel =
            placeFood { g1 with snake := nh :: g1.snake, score := g1.score + v,
                                highScore := if g1.score + v > g1.highScore then g1.score + v
                                             else g1.highScore } s pos1 fuel)) := by
  subst hnh
  obtain ⟨snake1, food1, ft1, dir1, sc1, hsc1, go1, ti1, vi1, rc1⟩ := g1
  dsimp only at hsnake ⊢
  subst hsnake
  cases hcol : onSnake (head :: rest) (wrap width height (step dir1 head)) with
  | true =>
    left
    refine ⟨rfl, ?_⟩
    rw [update, if_neg (by simp [h0]), hphase]
    simp only [hcol, if_pos]
  | false =>
    right
    cases heat : vi1 && samePoint (wrap width height (step dir1 head)) food1 with
    | false =>
      left
      refine ⟨rfl, rfl, ?_⟩
      rw [update, if_neg (by simp [h0]), hphase]
      simp only [hcol, heat, Bool.false_eq_true, if_false]
    | true =>
      right
      refine ⟨rfl, rfl, ?_⟩
      cases hv : foodValues[ft1]? with
      | none =>
        left
        refine ⟨rfl, ?_⟩
        rw [update, if_neg (by simp [h0]), hphase]
        simp only [hcol, heat, hv, Bool.false_eq_true, if_false, if_pos]
      | some v =>
        right
        refine ⟨v, rfl, ?_⟩
        rw [update, if_neg (by simp [h0]), hphase]
        simp only [hcol, heat, hv, Bool.false_eq_true, if_false, if_pos]

end Timed

/-! ## Concrete states used to instantiate the hypotheses of the theorems -/

/-- The initial state of `main.go` as produced by `newGame` on the constant-zero
random stream. -/
def gInit : Game :=
  { snake := [⟨20, 10⟩, ⟨19, 10⟩, ⟨18, 10⟩], food := ⟨0, 0⟩, foodType := 0,
    direction := .Right, score := 0, highScore := 0, gameOver := false }

/-- The state `gInit` after one non-eating tick. -/
def gStep : Game :=
  { snake := [⟨21, 10⟩, ⟨20, 10⟩, ⟨19, 10⟩], food := ⟨0, 0⟩, foodType := 0,
    direction := .Right, score := 0, highScore := 0, gameOver := false }

/-- A concrete terminal state of `main.go`. -/
def gOver : Game :=
  { snake := [⟨1, 1⟩, ⟨2, 1⟩], food := ⟨3, 3⟩, foodType := 1,
    direction := .Left, score := 4, highScore := 9, gameOver := true }

/-- A concrete terminal state of the timed variant. -/
def tOver : Timed.Game :=
  { snake := [⟨1, 1⟩, ⟨2, 1⟩], food := ⟨3, 3⟩, foodType := 1,
    direction := .Left, score := 4, highScore := 9, gameOver := true,
    foodTimer := 7, foodVisible := true, foodRespawnCounter := 0 }

/-- A live state about to run into its own body: heading `Right`, the cell in
front of the head is also the snake's third segment. -/
def gColl : Game :=
  { snake := [⟨20, 10⟩, ⟨21, 10⟩, ⟨20, 10⟩], food := ⟨0, 0⟩, foodType := 0,
    direction := .Right, score := 0, highScore := 0, gameOver := false }

/-- A live state whose next head cell holds the food (type 2, worth 5). -/
def gFood : Game :=
  { snake := [⟨20, 10⟩, ⟨19, 10⟩, ⟨18, 10⟩], food := ⟨21, 10⟩, foodType := 2,
    direction := .Right, score := 0, highScore := 0, gameOver := false }

/-- The state `gFood` after the eating tick on the constant-zero stream. -/
def gAte : Game :=
  { snake := [⟨21, 10⟩, ⟨20, 10⟩, ⟨19, 10⟩, ⟨18, 10⟩], food := ⟨0, 0⟩,
    foodType := 0, direction := .Right, score := 5, highScore := 5,
    gameOver := false }

/-! ## C1: snake length across one tick -/

/-- Claim C1: on a live state, `Update` either flags `gameOver` leaving the
body unchanged, or produces a snake that is one longer exactly when the new
head landed on (visible) food, and of unchanged length otherwise. The first
conjunct is `main.go` (its food is always visible); the second is the timed
variant, where visibility and the food position are taken after the
food-timer phase of the same tick. -/
theorem C1_snake_length :
    (∀ (g : Game) (s : Nat → Nat) (pos fuel : Nat) (g' : Game) (pos' : Nat)
        (head : Point) (rest : List Point),
        g.gameOver = false → g.snake = head :: rest →
        update g s pos fuel = some (g', pos') →
        (g'.gameOver = true ∧ g'.snake = g.snake) ∨
        (g'.gameOver = false ∧
          ((samePoint (wrap width height (step g.direction head)) g.food = true ∧
              g'.snake.length = g.snake.length + 1) ∨
            (samePoint (wrap width height (step g.direction head)) g.food = false ∧
              g'.snake.length = g.snake.length)))) ∧
    (∀ (g : Timed.Game) (s : Nat → Nat) (pos fuel : Nat) (g1 : Timed.Game)
        (pos1 : Nat) (g' : Timed.Game) (pos' : Nat) (head : Point)
        (rest : List Point),
        g.gameOver = false →
        Timed.foodPhase g s pos fuel = some (g1, pos1) →
        g.snake = head :: rest →
        Timed.update g s pos fuel = some (g', pos') →
        (g'.gameOver = true ∧ g'.snake = g.snake) ∨
        (g'.gameOver = false ∧
          (((g1.foodVisible &&
              samePoint (wrap width Timed.height (step g.direction head)) g1.food) = true ∧
              g'.snake.length = g.snake.length + 1) ∨
            ((g1.foodVisible &&
              samePoint (wrap width Timed.height (step g.direction head)) g1.food) = false ∧
              g'.snake.length = g.snake.length)))) := by
  constructor
  · intro g s pos fuel g' pos' head rest h0 hsnake hupd
    rcases update_cases g s pos fuel head rest _ h0 hsnake rfl with
      ⟨_, heq⟩ | ⟨_, heat, heq⟩ | ⟨_, heat, ⟨_, heq⟩ | ⟨v, _, heq⟩⟩
    · rw [heq, Option.some.injEq, Prod.mk.injEq] at hupd
      obtain ⟨h1, _⟩ := hupd
      subst h1
      exact Or.inl ⟨rfl, rfl⟩
    · rw [heq, Option.some.injEq, Prod.mk.injEq] at hupd
      obtain ⟨h1, _⟩ := hupd
      subst h1
      refine Or.inr ⟨h0, Or.inr ⟨heat, ?_⟩⟩
      simp [List.length_dropLast, List.length_cons]
    · rw [heq] at hupd
      exact Option.noConfusion hupd
    · rw [heq] at hupd
      obtain ⟨p, _, hg'⟩ := placeFood_some_eq hupd
      subst hg'
      exact Or.inr ⟨h0, Or.inl ⟨heat, by simp⟩⟩
  · intro g s pos fuel g1 pos1 g' pos' head rest h0 hphase hsnake hupd
    obtain ⟨hsn1, hdir1, _, _, hgo1⟩ := Timed.foodPhase_frame hphase
    have hsnake1 : g1.snake = head :: rest := by rw [hsn1, hsnake]
    have hgo1' : g1.gameOver = false := by rw [hgo1, h0]
    rcases Timed.update_casesT g s pos fuel g1 pos1 head rest _ h0 hphase hsnake1
        (by rw [hdir1]) with
      ⟨_, heq⟩ | ⟨heat, _, heq⟩ | ⟨heat, _, ⟨_, heq⟩ | ⟨v, _, heq⟩⟩
    · rw [heq, Option.some.injEq, Prod.mk.injEq] at hupd
      obtain ⟨h1, _⟩ := hupd
      subst h1
      exact Or.inl ⟨rfl, hsn1⟩
    · rw [heq, Option.some.injEq, Prod.mk.injEq] at hupd
      obtain ⟨h1, _⟩ := hupd
      subst h1
      refine Or.inr ⟨hgo1', Or.inr ⟨heat, ?_⟩⟩
      simp [List.length_dropLast, List.length_cons, hsn1]
    · rw [heq] at hupd
      exact Option.noConfusion hupd
    · rw [heq] at hupd
      obtain ⟨p, _, hg'⟩ := Timed.placeFood_some_eqT hupd
      subst hg'
      exact Or.inr ⟨hgo1', Or.inl ⟨heat, by simp [hsn1]⟩⟩

theorem C1_witness :
    (gStep.gameOver = true ∧ gStep.snake = gInit.snake) ∨
    (gStep.gameOver = false ∧
      ((samePoint (wrap width height (step gInit.direction ⟨20, 10⟩)) gInit.food = true ∧
          gStep.snake.length = gInit.snake.length + 1) ∨
        (samePoint (wrap width height (step gInit.direction ⟨20, 10⟩)) gInit.food = false ∧
          gStep.snake.length = gInit.snake.length))) :=
  C1_snake_length.1 gInit (fun _ => 0) 3 1 gStep 3 ⟨20, 10⟩ [⟨19, 10⟩, ⟨18, 10⟩]
    rfl rfl (by decide)

/-! ## C2: self-collision freezes the whole state -/

/-- Claim C2: on a live state, `Update` of `main.go` sets `gameOver` exactly
when the wrapped candidate head lies on the pre-tick body (tail included), and
in that case returns the state otherwise unchanged, consuming no randomness;
when the candidate head misses the body, `gameOver` stays false. -/
theorem C2_self_collision (g : Game) (s : Nat → Nat) (pos fuel : Nat)
    (head : Point) (rest : List Point)
    (h0 : g.gameOver = false) (hsnake : g.snake = head :: rest) :
    (wrap width height (step g.direction head) ∈ g.snake →
      update g s pos fuel = some ({ g with gameOver := true }, pos)) ∧
    (wrap width height (step g.direction head) ∉ g.snake →
      ∀ (g' : Game) (pos' : Nat),
        update g s pos fuel = some (g', pos') → g'.gameOver = false) := by
  rcases update_cases g s pos fuel head rest _ h0 hsnake rfl with
    ⟨hcol, heq⟩ | ⟨hcol, _, heq⟩ | ⟨hcol, _, ⟨_, heq⟩ | ⟨v, _, heq⟩⟩
  · exact ⟨fun _ => heq, fun hmem => absurd ((onSnake_iff _ _).mp hcol) hmem⟩
  · refine ⟨fun hmem => absurd hmem ((onSnake_eq_false_iff _ _).mp hcol), ?_⟩
    intro hmem g' pos' hupd
    rw [heq, Option.some.injEq, Prod.mk.injEq] at hupd
    obtain ⟨h1, _⟩ := hupd
    subst h1
    exact h0
  · refine ⟨fun hmem => absurd hmem ((onSnake_eq_false_iff _ _).mp hcol), ?_⟩
    intro hmem g' pos' hupd
    rw [heq] at hupd
    exact Option.noConfusion hupd
  · refine ⟨fun hmem => absurd hmem ((onSnake_eq_false_iff _ _).mp hcol), ?_⟩
    intro hmem g' pos' hupd
    rw [heq] at hupd
    obtain ⟨p, _, hg'⟩ := placeFood_some_eq hupd
    subst hg'
    exact h0

theorem C2_witness :
    update gColl (fun _ => 0) 0 1 = some ({ gColl with gameOver := true }, 0) :=
  (C2_self_collision gColl (fun _ => 0) 0 1 ⟨20, 10⟩ [⟨21, 10⟩, ⟨20, 10⟩]
    rfl rfl).1 (by decide)

/-! ## C3: coordinates stay on the torus -/

/-- Claim C3: `Update` of `main.go` preserves the in-grid invariant — if every
pre-tick segment lies in `[0, width) × [0, height)`, so does every post-tick
segment — and the wraparound maps each axis independently: a coordinate
stepping below `0` becomes `dimension - 1`, one reaching `dimension` becomes
`0`. Wrapping is total, so there is no wall-collision failure mode. -/
theorem C3_wraparound :
    (∀ (g : Game) (s : Nat → Nat) (pos fuel : Nat) (g' : Game) (pos' : Nat),
        (∀ p ∈ g.snake, inGrid width height p) →
        update g s pos fuel = some (g', pos') →
        ∀ p ∈ g'.snake, inGrid width height p) ∧
    (∀ p : Point,
        (p.x < 0 → (wrap width height p).x = width - 1) ∧
        (p.x ≥ width → (wrap width height p).x = 0) ∧
        (p.y < 0 → (wrap width height p).y = height - 1) ∧
        (p.y ≥ height → (wrap width height p).y = 0)) := by
  constructor
  · intro g s pos fuel g' pos' hinv hupd
    cases h0 : g.gameOver with
    | true =>
      rw [update, if_pos (by simp [h0]), Option.some.injEq, Prod.mk.injEq] at hupd
      obtain ⟨h1, _⟩ := hupd
      subst h1
      exact hinv
    | false =>
      cases hsnake : g.snake with
      | nil =>
        rw [update_nil s pos fuel h0 hsnake] at hupd
        exact Option.noConfusion hupd
      | cons head rest =>
        have hnh : inGrid width height (wrap width height (step g.direction head)) :=
          wrap_inGrid (by norm_num [width]) (by norm_num [height]) _
        rcases update_cases g s pos fuel head rest _ h0 hsnake rfl with
          ⟨_, heq⟩ | ⟨_, _, heq⟩ | ⟨_, _, ⟨_, heq⟩ | ⟨v, _, heq⟩⟩
        · rw [heq, Option.some.injEq, Prod.mk.injEq] at hupd
          obtain ⟨h1, _⟩ := hupd
          subst h1
          exact hinv
        · rw [heq, Option.some.injEq, Prod.mk.injEq] at hupd
          obtain ⟨h1, _⟩ := hupd
          subst h1
          intro p hp
          have hp' := List.dropLast_subset _ hp
          rcases List.mem_cons.mp hp' with h | h
          · subst h; exact hnh
          · exact hinv p h
        · rw [heq] at hupd
          exact Option.noConfusion hupd
        · rw [heq] at hupd
          obtain ⟨q, _, hg'⟩ := placeFood_some_eq hupd
          subst hg'
          intro p hp
          rcases List.mem_cons.mp hp with h | h
          · subst h; exact hnh
          · exact hinv p h
  · intro p
    refine ⟨?_, ?_, ?_, ?_⟩ <;> intro h <;>
      simp only [wrap, width, height] at h ⊢ <;>
      split_ifs <;> first | rfl | omega

theorem C3_witness : inGrid width height (⟨21, 10⟩ : Point) :=
  C3_wraparound.1 gInit (fun _ => 0) 3 1 gStep 3 (by decide) (by decide)
    ⟨21, 10⟩ (by decide)

/-! ## C7: score and high-score discipline -/

/-- Claim C7: across one `Update` of `main.go` the score never decreases and
the invariant `score ≤ highScore` is preserved (with `highScore` itself
non-decreasing); `NewGame` starts at score and high score `0`; and a restart
on a terminal state gives the new game the maximum of the session high score
and the ended game's high score, so its high score is at least both. -/
theorem C7_score_monotone :
    (∀ (g : Game) (s : Nat → Nat) (pos fuel : Nat) (g' : Game) (pos' : Nat),
        g.score ≤ g.highScore → update g s pos fuel = some (g', pos') →
        g.score ≤ g'.score ∧ g'.score ≤ g'.highScore ∧ g.highScore ≤ g'.highScore) ∧
    (∀ (s : Nat → Nat) (pos fuel : Nat) (g0 : Game) (pos' : Nat),
        newGame s pos fuel = some (g0, pos') → g0.score = 0 ∧ g0.highScore = 0) ∧
    (∀ (hs : Int) (g : Game) (s : Nat → Nat) (pos fuel : Nat) (hs' : Int)
        (g' : Game) (pos' : Nat),
        g.gameOver = true → restart hs g s pos fuel = some (hs', g', pos') →
        g'.highScore = goMax hs g.highScore ∧ g.highScore ≤ g'.highScore ∧
          hs ≤ g'.highScore ∧ g'.score = 0) := by
  refine ⟨?_, ?_, ?_⟩
  · intro g s pos fuel g' pos' hinv hupd
    cases h0 : g.gameOver with
    | true =>
      rw [update, if_pos (by simp [h0]), Option.some.injEq, Prod.mk.injEq] at hupd
      obtain ⟨h1, _⟩ := hupd
      subst h1
      exact ⟨le_refl _, hinv, le_refl _⟩
    | false =>
      cases hsnake : g.snake with
      | nil =>
        rw [update_nil s pos fuel h0 hsnake] at hupd
        exact Option.noConfusion hupd
      | cons head rest =>
        rcases update_cases g s pos fuel head rest _ h0 hsnake rfl with
          ⟨_, heq⟩ | ⟨_, _, heq⟩ | ⟨_, _, ⟨_, heq⟩ | ⟨v, hv, heq⟩⟩
        · rw [heq, Option.some.injEq, Prod.mk.injEq] at hupd
          obtain ⟨h1, _⟩ := hupd
          subst h1
          exact ⟨le_refl _, hinv, le_refl _⟩
        · rw [heq, Option.some.injEq, Prod.mk.injEq] at hupd
          obtain ⟨h1, _⟩ := hupd
          subst h1
          exact ⟨le_refl _, hinv, le_refl _⟩
        · rw [heq] at hupd
          exact Option.noConfusion hupd
        · rw [heq] at hupd
          obtain ⟨p, _, hg'⟩ := placeFood_some_eq hupd
          subst hg'
          have hvpos : 0 < v := by
            have hvmem : v ∈ foodValues := List.getElem?_mem hv
            simp only [foodValues, List.mem_cons, List.not_mem_nil, or_false] at hvmem
            rcases hvmem with h | h | h | h <;> omega
          dsimp only
          split_ifs <;> omega
  · intro s pos fuel g0 pos' hng
    obtain ⟨p, _, hg0⟩ := placeFood_some_eq hng
    subst hg0
    exact ⟨rfl, rfl⟩
  · intro hs g s pos fuel hs' g' pos' h0 hres
    rw [restart, if_pos (by simp [h0])] at hres
    cases hng : newGame s pos fuel with
    | none =>
      rw [hng] at hres
      exact Option.noConfusion hres
    | some pr =>
      obtain ⟨g0, q⟩ := pr
      rw [hng, Option.some.injEq, Prod.mk.injEq, Prod.mk.injEq] at hres
      obtain ⟨h1, h2, _⟩ := hres
      subst h2
      obtain ⟨p, _, hg0⟩ := placeFood_some_eq hng
      subst hg0
      refine ⟨rfl, ?_, ?_, rfl⟩ <;> simp only [goMax] <;> split_ifs <;> omega

theorem C7_witness :
    gFood.score ≤ gAte.score ∧ gAte.score ≤ gAte.highScore ∧
      gFood.highScore ≤ gAte.highScore :=
  C7_score_monotone.1 gFood (fun _ => 0) 3 1 gAte 6 (by decide) (by decide)

/-! ## C4: food placement -/

lemma foodCand_zero (s : Nat → Nat) (pos : Nat) (w h : Int) :
    foodCand s pos 0 w h = ⟨(s pos : Int) % w, (s (pos + 1) : Int) % h⟩ := by
  simp [foodCand]

lemma foodCand_shift (s : Nat → Nat) (pos k : Nat) (w h : Int) :
    foodCand s (pos + 2) k w h = foodCand s pos (k + 1) w h := by
  unfold foodCand
  rw [show pos + 2 + 2 * k = pos + 2 * (k + 1) by ring]

/-- If some candidate within the fuel budget misses the snake, the rejection
loop succeeds. -/
lemma placeFoodLoop_progress {w h : Int} (snake : List Point) (s : Nat → Nat) :
    ∀ (fuel pos : Nat),
      (∃ k, k < fuel ∧ onSnake snake (foodCand s pos k w h) = false) →
      ∃ p pos', placeFoodLoop w h snake s pos fuel = some (p, pos') := by
  intro fuel
  induction fuel with
  | zero =>
    intro pos hex
    obtain ⟨k, hk, _⟩ := hex
    exact absurd hk (Nat.not_lt_zero k)
  | succ n ih =>
    intro pos hex
    obtain ⟨k, hk, hfree⟩ := hex
    by_cases h0 : onSnake snake (foodCand s pos 0 w h) = false
    · refine ⟨foodCand s pos 0 w h, pos + 2, ?_⟩
      rw [foodCand_zero] at h0 ⊢
      simp only [placeFoodLoop]
      rw [if_neg (by simp [h0])]
    · have h0' : onSnake snake (foodCand s pos 0 w h) = true := by
        cases hb : onSnake snake (foodCand s pos 0 w h) with
        | true => rfl
        | false => exact absurd hb h0
      have hk0 : k ≠ 0 := by
        rintro rfl
        rw [hfree] at h0'
        exact Bool.noConfusion h0'
      obtain ⟨k', rfl⟩ := Nat.exists_eq_succ_of_ne_zero hk0
      obtain ⟨p, pos', hres⟩ :=
        ih (pos + 2) ⟨k', Nat.lt_of_succ_lt_succ hk, by rw [foodCand_shift]; exact hfree⟩
      refine ⟨p, pos', ?_⟩
      rw [foodCand_zero] at h0'
      simp only [placeFoodLoop]
      rw [if_pos h0']
      exact hres

/-- Claim C4: if the snake does not cover the whole grid and the random
stream eventually proposes every grid cell (as a uniform random stream does
with probability one), then `PlaceFood` of `main.go` terminates: some fuel
bound makes the rejection loop accept, the placed food is on no current
snake-body point, the snake itself is untouched, and the drawn food type is a
valid index into both the symbol and the value table. -/
theorem C4_placeFood (g : Game) (s : Nat → Nat) (pos : Nat)
    (hfree : ∃ c, inGrid width height c ∧ c ∉ g.snake)
    (hfair : ∀ c, inGrid width height c →
      ∃ k, foodCand s (pos + 1) k width height = c) :
    ∃ (fuel : Nat) (g' : Game) (pos' : Nat),
      placeFood g s pos fuel = some (g', pos') ∧
      g'.food ∉ g'.snake ∧ g'.snake = g.snake ∧
      g'.foodType < foodSymbols.length ∧ g'.foodType < foodValues.length := by
  obtain ⟨c, hc, hcs⟩ := hfree
  obtain ⟨k, hk⟩ := hfair c hc
  obtain ⟨p, pos', hloop⟩ :=
    placeFoodLoop_progress g.snake s (k + 1) (pos + 1)
      ⟨k, Nat.lt_succ_self k, by rw [hk]; exact (onSnake_eq_false_iff _ _).mpr hcs⟩
  have hsound :=
    placeFoodLoop_sound (by norm_num [width]) (by norm_num [height]) g.snake s
      (k + 1) (pos + 1) p pos' hloop
  refine ⟨k + 1, { g with foodType := s pos % foodSymbols.length, food := p },
    pos', ?_, ?_, rfl, ?_, ?_⟩
  · simp only [placeFood, hloop]
  · exact (onSnake_eq_false_iff _ _).mp hsound.1
  · exact Nat.mod_lt _ (by decide)
  · exact Nat.mod_lt _ (by decide)

/-- A random stream that proposes every cell of the `40 × 20` grid when the
rejection loop starts reading it at position `1`: candidate `k` is the cell
`(k / 20, k % 20)`. -/
def enumStream (n : Nat) : Nat :=
  if n % 2 = 1 then ((n - 1) / 2) / 20 else (n / 2 - 1) % 20

lemma enumStream_fair :
    ∀ c, inGrid width height c →
      ∃ k, foodCand enumStream (0 + 1) k width height = c := by
  intro c hc
  obtain ⟨cx, cy⟩ := c
  obtain ⟨hx0, hxw, hy0, hyh⟩ := hc
  dsimp only at hx0 hxw hy0 hyh
  rw [width] at hxw
  rw [height] at hyh
  refine ⟨cx.toNat * 20 + cy.toNat, ?_⟩
  have e1 : enumStream (0 + 1 + 2 * (cx.toNat * 20 + cy.toNat)) =
      (cx.toNat * 20 + cy.toNat) / 20 := by
    unfold enumStream
    rw [if_pos (by omega)]
    omega
  have e2 : enumStream (0 + 1 + 2 * (cx.toNat * 20 + cy.toNat) + 1) =
      (cx.toNat * 20 + cy.toNat) % 20 := by
    unfold enumStream
    rw [if_neg (by omega)]
    omega
  unfold foodCand
  rw [e1, e2]
  have hxt : (cx.toNat : Int) = cx := Int.toNat_of_nonneg hx0
  have hyt : (cy.toNat : Int) = cy := Int.toNat_of_nonneg hy0
  have h1 : (cx.toNat * 20 + cy.toNat) / 20 = cx.toNat := by omega
  have h2 : (cx.toNat * 20 + cy.toNat) % 20 = cy.toNat := by omega
  rw [h1, h2, hxt, hyt]
  rw [width, height]
  rw [Int.emod_eq_of_lt hx0 hxw, Int.emod_eq_of_lt hy0 hyh]

theorem C4_witness :
    ∃ (fuel : Nat) (g' : Game) (pos' : Nat),
      placeFood gInit enumStream 0 fuel = some (g', pos') ∧
      g'.food ∉ g'.snake ∧ g'.snake = gInit.snake ∧
      g'.foodType < foodSymbols.length ∧ g'.foodType < foodValues.length :=
  C4_placeFood gInit enumStream 0 ⟨⟨0, 0⟩, by decide, by decide⟩ enumStream_fair

/-! ## C5, C6: direction handling -/

/-- Claim C5 counterexample: with the snake heading `Right`, processing the
two key events `Up` then `Left` within one tick leaves the stored direction at
`Left`, the geometric opposite of the active direction `Right` — the guard
only compares against the latest stored direction, so a multi-key sequence can
reverse the snake within one tick. -/
theorem C5_counterexample :
    List.foldl requestDirection Direction.Right [Direction.Up, Direction.Left] =
      opposite Direction.Right := by
  decide

/-- Claim C5 (amended): a single direction-change request never yields the
geometric opposite of the direction it is applied to; the no-reverse guard
holds per request against the stored direction, not per tick against the
direction the previous `Update` used. -/
theorem C5_no_reverse_single (d req : Direction) :
    requestDirection d req ≠ opposite d := by
  cases d <;> cases req <;> decide

/-- Claim C6: a request equal to the exact opposite of the stored direction
leaves the direction unchanged (silently — `requestDirection` is total), and
any non-opposite request replaces the stored direction. -/
theorem C6_reversal_rejected (d req : Direction) :
    (req = opposite d → requestDirection d req = d) ∧
    (req ≠ opposite d → requestDirection d req = req) := by
  cases d <;> cases req <;> exact ⟨by decide, by decide⟩

theorem C6_witness :
    requestDirection Direction.Up Direction.Down = Direction.Up ∧
    requestDirection Direction.Up Direction.Left = Direction.Left :=
  ⟨(C6_reversal_rejected Direction.Up Direction.Down).1 (by decide),
   (C6_reversal_rejected Direction.Up Direction.Left).2 (by decide)⟩

/-! ## C8: terminal states are frozen -/

/-- Claim C8: when `gameOver` is already set, `Update` of both variants
returns the state completely unchanged and consumes no randomness. -/
theorem C8_gameOver_noop :
    (∀ (g : Game) (s : Nat → Nat) (pos fuel : Nat),
      g.gameOver = true → update g s pos fuel = some (g, pos)) ∧
    (∀ (g : Timed.Game) (s : Nat → Nat) (pos fuel : Nat),
      g.gameOver = true → Timed.update g s pos fuel = some (g, pos)) := by
  constructor <;> intro g s pos fuel h <;> simp [update, Timed.update, h]

theorem C8_witness :
    update gOver (fun _ => 0) 5 0 = some (gOver, 5) ∧
    Timed.update tOver (fun _ => 0) 5 0 = some (tOver, 5) :=
  ⟨C8_gameOver_noop.1 gOver (fun _ => 0) 5 0 rfl,
   C8_gameOver_noop.2 tOver (fun _ => 0) 5 0 rfl⟩

/-! ## C9: reachable states keep every table access in bounds -/

/-- The states of `main.go` reachable from `NewGame` through ticks, arrow-key
direction changes, and restarts of the main loop. -/
inductive Reachable : Game → Prop where
  | init : ∀ (s : Nat → Nat) (pos fuel : Nat) (g : Game) (pos' : Nat),
      newGame s pos fuel = some (g, pos') → Reachable g
  | tick : ∀ (g : Game) (s : Nat → Nat) (pos fuel : Nat) (g' : Game) (pos' : Nat),
      Reachable g → update g s pos fuel = some (g', pos') → Reachable g'
  | key : ∀ (g : Game) (req : Direction), Reachable g →
      Reachable { g with direction := requestDirection g.direction req }
  | restartKey : ∀ (hs : Int) (g : Game) (s : Nat → Nat) (pos fuel : Nat)
      (hs' : Int) (g' : Game) (pos' : Nat), Reachable g →
      restart hs g s pos fuel = some (hs', g', pos') → Reachable g'

lemma newGame_inv {s : Nat → Nat} {pos fuel : Nat} {g0 : Game} {pos' : Nat}
    (h : newGame s pos fuel = some (g0, pos')) :
    3 ≤ g0.snake.length ∧ g0.foodType < 4 := by
  obtain ⟨p, _, hg0⟩ := placeFood_some_eq h
  subst hg0
  refine ⟨?_, Nat.mod_lt _ (by decide)⟩
  simp [initialSize]

lemma update_inv {g : Game} {s : Nat → Nat} {pos fuel : Nat} {g' : Game}
    {pos' : Nat} (hInv : 3 ≤ g.snake.length ∧ g.foodType < 4)
    (hupd : update g s pos fuel = some (g', pos')) :
    3 ≤ g'.snake.length ∧ g'.foodType < 4 := by
  cases h0 : g.gameOver with
  | true =>
    rw [update, if_pos (by simp [h0]), Option.some.injEq, Prod.mk.injEq] at hupd
    obtain ⟨h1, _⟩ := hupd
    subst h1
    exact hInv
  | false =>
    cases hsnake : g.snake with
    | nil =>
      rw [update_nil s pos fuel h0 hsnake] at hupd
      exact Option.noConfusion hupd
    | cons head rest =>
      rcases update_cases g s pos fuel head rest _ h0 hsnake rfl with
        ⟨_, heq⟩ | ⟨_, _, heq⟩ | ⟨_, _, ⟨_, heq⟩ | ⟨v, _, heq⟩⟩
      · rw [heq, Option.some.injEq, Prod.mk.injEq] at hupd
        obtain ⟨h1, _⟩ := hupd
        subst h1
        exact hInv
      · rw [heq, Option.some.injEq, Prod.mk.injEq] at hupd
        obtain ⟨h1, _⟩ := hupd
        subst h1
        refine ⟨?_, hInv.2⟩
        simpa [List.length_dropLast, List.length_cons] using hInv.1
      · rw [heq] at hupd
        exact Option.noConfusion hupd
      · rw [heq] at hupd
        obtain ⟨p, _, hg'⟩ := placeFood_some_eq hupd
        subst hg'
        refine ⟨?_, Nat.mod_lt _ (by decide)⟩
        simp only [List.length_cons]
        omega

lemma restart_inv {hs : Int} {g : Game} {s : Nat → Nat} {pos fuel : Nat}
    {hs' : Int} {g' : Game} {pos' : Nat}
    (hInv : 3 ≤ g.snake.length ∧ g.foodType < 4)
    (hres : restart hs g s pos fuel = some (hs', g', pos')) :
    3 ≤ g'.snake.length ∧ g'.foodType < 4 := by
  cases h0 : g.gameOver with
  | true =>
    rw [restart, if_pos (by simp [h0])] at hres
    cases hng : newGame s pos fuel with
    | none =>
      rw [hng] at hres
      exact Option.noConfusion hres
    | some pr =>
      obtain ⟨g0, q⟩ := pr
      rw [hng, Option.some.injEq, Prod.mk.injEq, Prod.mk.injEq] at hres
      obtain ⟨_, h2, _⟩ := hres
      subst h2
      have h3 := newGame_inv hng
      exact ⟨h3.1, h3.2⟩
  | false =>
    rw [restart, if_neg (by simp [h0]), Option.some.injEq, Prod.mk.injEq,
      Prod.mk.injEq] at hres
    obtain ⟨_, h2, _⟩ := hres
    subst h2
    exact hInv

/-- Claim C9: in every state reachable from `NewGame` through `Update`,
direction changes, and restarts, the snake is non-empty with length at least
the initial size 3, and the food type indexes both fixed tables in bounds, so
the `snake[0]`, `foodValues[foodType]`, and `foodSymbols[foodType]` accesses
of the Go code never go out of range. -/
theorem C9_access_safety (g : Game) (hg : Reachable g) :
    g.snake ≠ [] ∧ 3 ≤ g.snake.length ∧
      foodValues[g.foodType]?.isSome ∧ foodSymbols[g.foodType]?.isSome := by
  have hinv : 3 ≤ g.snake.length ∧ g.foodType < 4 := by
    induction hg with
    | init s pos fuel g0 pos' h => exact newGame_inv h
    | tick g s pos fuel g' pos' _ hupd ih => exact update_inv ih hupd
    | key g req _ ih => exact ih
    | restartKey hs g s pos fuel hs' g' pos' _ hres ih => exact restart_inv ih hres
  obtain ⟨hlen, hft⟩ := hinv
  refine ⟨?_, hlen, ?_, ?_⟩
  · intro hnil
    rw [hnil] at hlen
    simp at hlen
  · simp [List.getElem?_eq_getElem (show g.foodType < foodValues.length by
      simpa [foodValues] using hft)]
  · simp [List.getElem?_eq_getElem (show g.foodType < foodSymbols.length by
      simpa [foodSymbols] using hft)]

theorem C9_witness :
    gInit.snake ≠ [] ∧ 3 ≤ gInit.snake.length ∧
      foodValues[gInit.foodType]?.isSome ∧ foodSymbols[gInit.foodType]?.isSome :=
  C9_access_safety gInit (Reachable.init (fun _ => 0) 0 1 gInit 3 (by decide))

/-! ## C10: determinism in the random stream -/

/-- Claim C10: `Update` and `PlaceFood` of both variants are deterministic
given the random stream — two runs from equal states that consume equal
sequences of random values produce equal results (same game state, same
stream position). -/
theorem C10_deterministic (s1 s2 : Nat → Nat) (hss : ∀ i, s1 i = s2 i) :
    (∀ (g : Game) (pos fuel : Nat), update g s1 pos fuel = update g s2 pos fuel) ∧
    (∀ (g : Game) (pos fuel : Nat), placeFood g s1 pos fuel = placeFood g s2 pos fuel) ∧
    (∀ (g : Timed.Game) (pos fuel : Nat),
      Timed.update g s1 pos fuel = Timed.update g s2 pos fuel) ∧
    (∀ (g : Timed.Game) (pos fuel : Nat),
      Timed.placeFood g s1 pos fuel = Timed.placeFood g s2 pos fuel) := by
  have h : s1 = s2 := funext hss
  subst h
  exact ⟨fun _ _ _ => rfl, fun _ _ _ => rfl, fun _ _ _ => rfl, fun _ _ _ => rfl⟩

theorem C10_witness :
    update gInit (fun n => n + 0) 0 1 = update gInit (fun n => n) 0 1 :=
  (C10_deterministic (fun n => n + 0) (fun n => n) (fun i => Nat.add_zero i)).1
    gInit 0 1

end SnakeGame
